import Mathlib

/-!
Verification of the PGVector-Template corpus/document layer.

The Python sources are shallowly embedded in Lean:

* `validate_condition_compatibility` and its type-resolution step are
  translated from `pgvector_template/utils/metadata_filter.py`.  Python type
  annotation objects are modelled by the inductive `PyType`, which records
  exactly the structure the source inspects (`__origin__`, `__args__`,
  `__name__`, and identity as a dictionary key).
* `SearchQuery` construction (pydantic field constraint `ge=1` plus the
  `ensure_criterion` model validator) is translated from
  `pgvector_template/models/search.py`; Python truthiness of the optional
  criterion fields is made explicit.
* `get_full_corpus` is translated from `BaseDocumentManager.get_full_corpus`
  in `pgvector_template/core/manager.py` lines 16-45, which is present in the
  source tree.
* The remaining corpus-manager operations (`insert_corpus`,
  `insert_documents`, chunk splitting and metadata inference of
  `BaseCorpusManager`) and the search-client query stages are absent from the
  source tree (only their tests, data model and callers are present); those
  definitions are modelled from the specification and are marked
  `Modelled from the spec:` in their doc strings.

Raised Python exceptions are modelled with `Except PyError`; a function that
returns normally yields `.ok`.
-/

/-- Python exception values observed by the callers of this layer. -/
inductive PyError where
  | valueError (msg : String)
  | typeError (msg : String)
  | integrityError (msg : String)
deriving Repr, DecidableEq

/-- A Python type annotation object, as inspected by
`validate_condition_compatibility` in `utils/metadata_filter.py`.

* `pyStr`/`pyInt`/`pyFloat`/`pyBool`/`pyNoneType`/`pyList` are the plain
  builtin classes (no `__origin__` attribute); `pyList` is the bare `list`
  class used as a key of the `valid_conditions` dictionary.
* `customClass n` is any other plain class (unknown/unannotated type) with
  `__name__ = n`.
* `listGeneric a` is a subscripted `list[a]`: its `__origin__` is `list`,
  and its `__name__` is proxied to `"list"`.
* `unionGeneric args` is `typing.Union[args]` (which `Optional` elaborates
  to): its `__origin__` is `typing.Union` (not `list`) and `__args__` is
  `args` in the order produced by the annotation. -/
inductive PyType where
  | pyStr
  | pyInt
  | pyFloat
  | pyBool
  | pyNoneType
  | pyList
  | customClass (name : String)
  | listGeneric (arg : PyType)
  | unionGeneric (args : List PyType)

/-- Structural equality on `PyType`, mirroring Python type-object equality. -/
def PyType.beq : PyType → PyType → Bool
  | .pyStr, .pyStr => true
  | .pyInt, .pyInt => true
  | .pyFloat, .pyFloat => true
  | .pyBool, .pyBool => true
  | .pyNoneType, .pyNoneType => true
  | .pyList, .pyList => true
  | .customClass a, .customClass b => a == b
  | .listGeneric a, .listGeneric b => a.beq b
  | .unionGeneric a, .unionGeneric b => beqList a b
  | _, _ => false
where
  beqList : List PyType → List PyType → Bool
  | [], [] => true
  | x :: xs, y :: ys => x.beq y && beqList xs ys
  | _, _ => false

instance : BEq PyType := ⟨PyType.beq⟩

/-- The `__name__` attribute of the type object (a subscripted `list[T]`
proxies `__name__` to its origin, so it reads `"list"`). -/
def PyType.typeName : PyType → String
  | .pyStr => "str"
  | .pyInt => "int"
  | .pyFloat => "float"
  | .pyBool => "bool"
  | .pyNoneType => "NoneType"
  | .pyList => "list"
  | .customClass n => n
  | .listGeneric _ => "list"
  | .unionGeneric _ => "Union"

/-- The type-resolution preamble of `validate_condition_compatibility`
(`utils/metadata_filter.py` lines 44-51): when the annotation has an
`__origin__`, replace it by `list` if the origin is `list`, otherwise by
`__args__[0]` when `__args__` is non-empty. -/
def resolveFieldType (t : PyType) : PyType :=
  match t with
  | .listGeneric _ => .pyList
  | .unionGeneric [] => .unionGeneric []
  | .unionGeneric (a :: _) => a
  | t => t

/-- The `valid_conditions` dictionary of `utils/metadata_filter.py` lines
53-59; `none` models a missed dictionary lookup (`dict.get` default). -/
def validConditions (t : PyType) : Option (List String) :=
  match t with
  | .pyStr => some ["eq", "exists"]
  | .pyInt => some ["eq", "gt", "gte", "lt", "lte", "exists"]
  | .pyFloat => some ["eq", "gt", "gte", "lt", "lte", "exists"]
  | .pyBool => some ["eq", "exists"]
  | .pyList => some ["contains", "in", "exists"]
  | _ => none

/-- Translation of `validate_condition_compatibility` from
`utils/metadata_filter.py`: resolve the annotation, look the resolved type up
in `valid_conditions` (defaulting to `["eq", "exists"]`), and raise a
`ValueError` naming the condition and the resolved type's `__name__` when the
condition is not allowed. -/
def validate_condition_compatibility (fieldType : PyType) (condition : String) :
    Except PyError Unit :=
  let ft := resolveFieldType fieldType
  let allowed := (validConditions ft).getD ["eq", "exists"]
  if condition ∈ allowed then .ok ()
  else .error (.valueError
    ("Condition '" ++ condition ++ "' not valid for field type " ++ ft.typeName))

/-- Modelled from the spec: the terminal-segment resolution rule of section
4.3 — "resolve Optional/Union wrapper types to their first non-null
alternative, and list-like annotations to a generic list category".  This
definition follows the specification's words and is compared against the
source translation `resolveFieldType`. -/
def resolveFieldTypeSpec (t : PyType) : PyType :=
  let unwrapped :=
    match t with
    | .unionGeneric args =>
        match args.find? (fun a => !(a == PyType.pyNoneType)) with
        | some a => a
        | none => t
    | t => t
  match unwrapped with
  | .listGeneric _ => .pyList
  | u => u

/-! ## SearchQuery construction (`models/search.py`) -/

/-- A metadata filter as in `models/search.py`: a dot-separated field path, a
condition keyword and a comparison value (values are kept opaque). -/
structure MetadataFilter where
  field_name : String
  condition : String
  value : String
deriving Repr, DecidableEq

/-- The raw field values handed to the `SearchQuery` pydantic constructor in
`models/search.py`.  `date_range` keeps its two timestamps abstract. -/
structure SearchQueryInput where
  text : Option String
  keywords : Option (List String)
  metadata_filters : Option (List MetadataFilter)
  date_range : Option (Int × Int)
  limit : Int
deriving Repr, DecidableEq

/-- Python truthiness of an optional string (`None` and `""` are falsy). -/
def optStrTruthy : Option String → Bool
  | none => false
  | some s => !(s == "")

/-- Python truthiness of an optional list (`None` and `[]` are falsy). -/
def optListTruthy {α : Type} : Option (List α) → Bool
  | none => false
  | some l => !l.isEmpty

/-- The `any([...])` test of the `ensure_criterion` validator in
`models/search.py` lines 48-52, with Python truthiness spelled out (a
two-element tuple is always truthy). -/
def hasCriterion (q : SearchQueryInput) : Bool :=
  optStrTruthy q.text || optListTruthy q.keywords ||
    optListTruthy q.metadata_filters || q.date_range.isSome

/-- Translation of constructing a `SearchQuery` (`models/search.py`): pydantic
first enforces the field constraint `limit ≥ 1` (`Field(..., ge=1)`), then
runs the `ensure_criterion` model validator, which raises a `ValueError` when
no criterion field is truthy. -/
def searchQueryConstruct (q : SearchQueryInput) : Except PyError SearchQueryInput :=
  if q.limit < 1 then
    .error (.valueError "Input should be greater than or equal to 1")
  else if hasCriterion q then .ok q
  else .error (.valueError "At least one search criterion is required")

/-! ## Corpus data model

Of the corpus-manager code, `core/manager.py` implements only
`BaseDocumentManager.get_full_corpus` (translated below); the
`BaseCorpusManager` write path is not present in the source tree — only its
unit tests, integration tests, the `BaseDocument` data model and the service
layer that instantiates it are.  The write-path definitions below are
therefore modelled from the specification (sections 3, 4.1 and 7). -/

/-- A Python `dict[str, str]`-like metadata mapping, kept as an association
list in insertion order.  Well-formed Python dictionaries never repeat a key
(`MetadataDictWF`). -/
def MetadataDict : Type := List (String × String)

instance : DecidableEq MetadataDict := by
  unfold MetadataDict
  infer_instance

instance : Repr MetadataDict := by
  unfold MetadataDict
  infer_instance

/-- Python dictionary invariant: keys are pairwise distinct. -/
def MetadataDictWF (d : MetadataDict) : Prop := (d.map Prod.fst).Nodup

instance (d : MetadataDict) : Decidable (MetadataDictWF d) := by
  unfold MetadataDictWF
  infer_instance

/-- Lookup `d[k]`, returning the first binding of `k`. -/
def dictGet (d : MetadataDict) (k : String) : Option String :=
  match d with
  | [] => none
  | (k', v) :: rest => if k' == k then some v else dictGet rest k

/-- Python `d[k] = v`: replace the binding of `k` in place if present,
otherwise append it. -/
def dictInsert (d : MetadataDict) (k : String) (v : String) : MetadataDict :=
  match d with
  | [] => [(k, v)]
  | (k', v') :: rest =>
    if k' == k then (k', v) :: rest else (k', v') :: dictInsert rest k v

/-- Python `{**d, **other}` / `d.update(other)`: apply the bindings of
`other` to `d` left to right, later bindings overriding earlier ones. -/
def dictUpdate (d other : MetadataDict) : MetadataDict :=
  other.foldl (fun acc kv => dictInsert acc kv.1 kv.2) d

/-- Optional per-document properties of `BaseDocumentOptionalProps`
(`core/document.py`); only the fields the claims mention are kept. -/
structure OptionalProps where
  title : Option String
  collection : Option String
deriving Repr, DecidableEq

/-- A persisted (or in-memory) document row, as declared by `BaseDocument` in
`core/document.py`.  `document_metadata` is optional here because an
in-memory object can carry Python `None`; the store column itself is declared
`nullable=False`, so persisted rows always carry a mapping. -/
structure DocumentRow where
  collection : Option String
  corpus_id : String
  chunk_index : Nat
  content : String
  document_metadata : Option MetadataDict
  embedding : List Int
  is_deleted : Bool
deriving Repr, DecidableEq

/-- The store key of the unique constraint on
`(collection, corpus_id, chunk_index)` (spec section 3). -/
def rowKey (r : DocumentRow) : Option String × String × Nat :=
  (r.collection, r.corpus_id, r.chunk_index)

/-- Insert a row into a list sorted by `chunk_index`, before the first row
with a larger-or-equal index. -/
def insertByChunkIndex (r : DocumentRow) : List DocumentRow → List DocumentRow
  | [] => [r]
  | x :: xs =>
    if r.chunk_index ≤ x.chunk_index then r :: x :: xs
    else x :: insertByChunkIndex r xs

/-- Sort rows by ascending `chunk_index` (the `ORDER BY chunk_index` of the
reconstruction query and the ordering step of the default join strategy). -/
def sortByChunkIndex : List DocumentRow → List DocumentRow
  | [] => []
  | x :: xs => insertByChunkIndex x (sortByChunkIndex xs)

/-- The external embedding provider contract (spec section 6):
`embed_batch` maps a batch of texts to one vector per text, in order. -/
structure EmbeddingProvider where
  embed_batch : List String → List (List Int)
  embed_batch_length : ∀ ts, (embed_batch ts).length = ts.length

/-- Modelled from the spec: the state of a `BaseCorpusManager`
(`core/manager.py`, absent from the source tree) — an optional embedding
provider (absent for read-only managers), the manager's chunk delimiter used
by the default split and join strategies, and the pluggable
`_extract_chunk_metadata` hook (default: empty mapping). -/
structure CorpusManager where
  embedding_provider : Option EmbeddingProvider
  chunk_delimiter : String
  extract_chunk_metadata : String → MetadataDict

/-- Split a character list on each occurrence of a (non-empty) delimiter,
Python `str.split(sep)` style; the structural fuel argument is the input
length, which the scan never exhausts. -/
def splitCharsFuel (d : List Char) : Nat → List Char → List Char → List (List Char)
  | 0, acc, s => [acc.reverse ++ s]
  | fuel + 1, acc, s =>
    match s with
    | [] => [acc.reverse]
    | c :: cs =>
      if d ≠ [] ∧ d.isPrefixOf (c :: cs) then
        acc.reverse :: splitCharsFuel d fuel [] (List.drop d.length (c :: cs))
      else
        splitCharsFuel d fuel (c :: acc) cs

/-- Split a string on a delimiter (Python `content.split(delimiter)`). -/
def splitChars (d s : List Char) : List (List Char) :=
  splitCharsFuel d s.length [] s

/-- Strip leading and trailing whitespace (Python `str.strip`). -/
def trimChars (s : List Char) : List Char :=
  ((s.dropWhile Char.isWhitespace).reverse.dropWhile Char.isWhitespace).reverse

/-- Modelled from the spec: `_split_corpus` (section 4.1) — delimiter-based
split, trimming each piece and skipping whitespace-only results. -/
def splitCorpus (m : CorpusManager) (content : String) : List String :=
  ((splitChars m.chunk_delimiter.toList content.toList).map
    (fun cs => String.mk (trimChars cs))).filter (fun c => !(c == ""))

/-- Modelled from the spec: `_infer_corpus_metadata` (section 4.1) — merge
each document's stored metadata in order into the accumulator, later
documents' keys winning; raise a `TypeError` at the first document whose
metadata is absent (Python `None`), never skipping it. -/
def inferCorpusMetadataFrom (acc : MetadataDict) :
    List DocumentRow → Except PyError MetadataDict
  | [] => .ok acc
  | d :: ds =>
    match d.document_metadata with
    | none => .error (.typeError "document_metadata is None")
    | some md => inferCorpusMetadataFrom (dictUpdate acc md) ds

/-- Modelled from the spec: `_infer_corpus_metadata` on a document list,
starting from the empty mapping. -/
def inferCorpusMetadata (docs : List DocumentRow) : Except PyError MetadataDict :=
  inferCorpusMetadataFrom [] docs

/-- The session operations a manager call performs against the unit of work
(spec section 6). -/
inductive SessionOp where
  | deleteByCorpusId (cid : String)
  | addAll (rows : List DocumentRow)
  | commitOp
deriving Repr, DecidableEq

/-- Result of a write operation: the Python return value or raised error, the
visible store afterwards (unchanged when the transaction failed, because the
flush is all-or-nothing), and the session operations performed. -/
structure InsertOutcome where
  result : Except PyError Nat
  store : List DocumentRow
  ops : List SessionOp
deriving Repr

/-- Duplicate `(collection, corpus_id, chunk_index)` keys within a batch of
new rows. -/
def hasDupKeys : List DocumentRow → Bool
  | [] => false
  | r :: rs => rs.any (fun s => decide (rowKey s = rowKey r)) || hasDupKeys rs

/-- The store-level unique-constraint check performed at commit time: a new
row clashing with a stored row, or two new rows sharing a key. -/
def keyClash (store newRows : List DocumentRow) : Bool :=
  newRows.any (fun r => store.any (fun s => decide (rowKey s = rowKey r))) ||
    hasDupKeys newRows

/-- Modelled from the spec: the rows built by `insert_documents` for contents
and embeddings of equal length — chunk `i` gets `chunk_index = start + i`,
metadata `corpus_metadata` updated with the extracted chunk metadata (chunk
keys overriding corpus keys), and the optional properties' collection. -/
def buildRows (m : CorpusManager) (cid : String) (corpusMeta : MetadataDict)
    (opts : OptionalProps) : Nat → List String → List (List Int) → List DocumentRow
  | _, [], _ => []
  | _, _ :: _, [] => []
  | i, c :: cs, e :: es =>
    { collection := opts.collection, corpus_id := cid, chunk_index := i,
      content := c,
      document_metadata := some (dictUpdate corpusMeta (m.extract_chunk_metadata c)),
      embedding := e, is_deleted := false } :: buildRows m cid corpusMeta opts (i + 1) cs es

/-- Modelled from the spec: `insert_documents` (section 4.1) — raise a
`ValueError` on a content/embedding length mismatch before touching the
store; return 0 with no store operation for empty input; otherwise, when
`update_if_exists` is true, first delete every document with the same
`corpus_id` regardless of collection, then add all built rows and commit in
one transaction, the commit surfacing a store `IntegrityError` on a
`(collection, corpus_id, chunk_index)` unique-constraint violation. -/
def insert_documents (m : CorpusManager) (store : List DocumentRow)
    (cid : String) (contents : List String) (embeddings : List (List Int))
    (corpusMeta : MetadataDict) (opts : OptionalProps)
    (update_if_exists : Bool) : InsertOutcome :=
  if contents.length ≠ embeddings.length then
    { result := .error (.valueError "Number of embeddings does not match number of documents"),
      store := store, ops := [] }
  else if contents.isEmpty then
    { result := .ok 0, store := store, ops := [] }
  else
    let store1 := if update_if_exists
      then store.filter (fun r => !(r.corpus_id == cid))
      else store
    let newRows := buildRows m cid corpusMeta opts 0 contents embeddings
    let delOps := if update_if_exists then [SessionOp.deleteByCorpusId cid] else []
    let ops := delOps ++ [SessionOp.addAll newRows, SessionOp.commitOp]
    if keyClash store1 newRows then
      { result := .error (.integrityError "duplicate key value violates unique constraint"),
        store := store, ops := ops }
    else
      { result := .ok contents.length, store := store1 ++ newRows, ops := ops }

/-- Modelled from the spec: `insert_corpus` (section 4.1) — require a
configured embedding provider, raising a `ValueError` reading
"embedding_provider must be provided" when absent; use the supplied corpus id
or the freshly generated one (`uuid4`, modelled as the explicit `freshId`
argument); split the content, embed all chunks in one batch call, and
delegate to `insert_documents`. -/
def insert_corpus (m : CorpusManager) (store : List DocumentRow)
    (content : String) (corpusMeta : MetadataDict) (opts : OptionalProps)
    (corpus_id : Option String) (freshId : String)
    (update_if_exists : Bool) : InsertOutcome :=
  match m.embedding_provider with
  | none =>
    { result := .error (.valueError "embedding_provider must be provided"),
      store := store, ops := [] }
  | some p =>
    let cid := corpus_id.getD freshId
    let chunks := splitCorpus m content
    let embs := p.embed_batch chunks
    insert_documents m store cid chunks embs corpusMeta opts update_if_exists

/-! ## Search-client keyword stage

The search client's query-stage methods (`_apply_keyword_search` in
`core/search.py`) are likewise absent from the source tree (only an abstract
base class and the unit tests remain), so the stage is modelled from the
specification (section 4.2). -/

/-- Lower-case a string character by character (Python `str.lower` /
the case folding performed by SQL `ILIKE`, restricted to ASCII-like data). -/
def lowerStr (s : String) : String := String.map Char.toLower s

/-- Whether `needle` occurs as a contiguous sublist of `hay`. -/
def isInfixB (needle : List Char) : List Char → Bool
  | [] => needle.isEmpty
  | h :: t => needle.isPrefixOf (h :: t) || isInfixB needle t

/-- Case-insensitive substring test: the SQL predicate
`content ILIKE '%kw%'`. -/
def containsCI (content kw : String) : Bool :=
  isInfixB (lowerStr kw).toList (lowerStr content).toList

/-- One WHERE condition of a compiled store query: either the keyword-stage
disjunction `OR_k (content ILIKE '%k%')`, or any other predicate kept
abstract. -/
inductive QueryCond where
  | keywordOr (kws : List String)
  | pred (p : DocumentRow → Bool)

/-- A compiled store query: a conjunction of WHERE conditions. -/
structure StoreQuery where
  conds : List QueryCond

/-- Whether a row satisfies one condition. -/
def condHolds (r : DocumentRow) : QueryCond → Bool
  | .keywordOr kws => kws.any (fun k => containsCI r.content k)
  | .pred p => p r

/-- Whether a row satisfies every condition of a query. -/
def queryHolds (q : StoreQuery) (r : DocumentRow) : Bool :=
  q.conds.all (condHolds r)

/-- Modelled from the spec: the keyword stage `_apply_keyword_search`
(section 4.2) — when keywords are present, add one condition requiring the
content to case-insensitively contain at least one keyword (OR across
keywords); when they are absent, return the query unmodified. -/
def applyKeywordSearch (q : StoreQuery) (keywords : Option (List String)) :
    StoreQuery :=
  match keywords with
  | none => q
  | some kws => { conds := q.conds ++ [QueryCond.keywordOr kws] }

/-- Left-biased choice on optional values (Python `x if x is not None else y`). -/
def optOr (a b : Option String) : Option String :=
  match a with
  | some v => some v
  | none => b

/-- The metadata value a key receives after merging a document list in order:
the binding of the last document whose metadata contains the key. -/
def lastMetaValue (docs : List DocumentRow) (k : String) : Option String :=
  match docs with
  | [] => none
  | d :: ds =>
    optOr (lastMetaValue ds k)
      (match d.document_metadata with
       | none => none
       | some md => dictGet md k)


/-! ## Theorems: metadata-filter condition compatibility (C7, C8) -/

/-- The validator succeeds exactly when the condition is in the allowed list
of the resolved type (with the permissive `["eq", "exists"]` default). -/
theorem validate_ok_iff (t : PyType) (c : String) :
    validate_condition_compatibility t c = .ok () ↔
      c ∈ (validConditions (resolveFieldType t)).getD ["eq", "exists"] := by
  unfold validate_condition_compatibility
  dsimp only
  split
  · simp [*]
  · simp [*]

/-- C7: for every resolved leaf type the condition-compatibility check
accepts exactly `eq`/`exists` for `str` and `bool` fields,
`eq`/`gt`/`gte`/`lt`/`lte`/`exists` for `int` and `float` fields,
`contains`/`in`/`exists` for `list` fields, and `eq`/`exists` for any other
(unknown/unannotated) type; every condition is either accepted or rejected
with a `ValueError` naming both the condition and the resolved type. -/
theorem metadata_filter_condition_compatibility (c n : String) :
    (validate_condition_compatibility .pyStr c = .ok () ↔ c = "eq" ∨ c = "exists")
  ∧ (validate_condition_compatibility .pyBool c = .ok () ↔ c = "eq" ∨ c = "exists")
  ∧ (validate_condition_compatibility .pyInt c = .ok () ↔
      c = "eq" ∨ c = "gt" ∨ c = "gte" ∨ c = "lt" ∨ c = "lte" ∨ c = "exists")
  ∧ (validate_condition_compatibility .pyFloat c = .ok () ↔
      c = "eq" ∨ c = "gt" ∨ c = "gte" ∨ c = "lt" ∨ c = "lte" ∨ c = "exists")
  ∧ (validate_condition_compatibility .pyList c = .ok () ↔
      c = "contains" ∨ c = "in" ∨ c = "exists")
  ∧ (validate_condition_compatibility (.customClass n) c = .ok () ↔
      c = "eq" ∨ c = "exists")
  ∧ (validate_condition_compatibility .pyNoneType c = .ok () ↔
      c = "eq" ∨ c = "exists")
  ∧ (∀ t : PyType, validate_condition_compatibility t c = .ok ()
      ∨ validate_condition_compatibility t c =
        .error (.valueError ("Condition '" ++ c ++ "' not valid for field type "
          ++ (resolveFieldType t).typeName))) := by
  refine ⟨?_, ?_, ?_, ?_, ?_, ?_, ?_, ?_⟩
  · rw [validate_ok_iff]; simp [resolveFieldType, validConditions]
  · rw [validate_ok_iff]; simp [resolveFieldType, validConditions]
  · rw [validate_ok_iff]; simp [resolveFieldType, validConditions]
  · rw [validate_ok_iff]; simp [resolveFieldType, validConditions]
  · rw [validate_ok_iff]; simp [resolveFieldType, validConditions]
  · rw [validate_ok_iff]; simp [resolveFieldType, validConditions]
  · rw [validate_ok_iff]; simp [resolveFieldType, validConditions]
  · intro t
    unfold validate_condition_compatibility
    dsimp only
    split
    · exact Or.inl rfl
    · exact Or.inr rfl

/-- C8: the source resolves an Optional/Union annotation to its literal
first alternative (`__args__[0]`), not to its first non-null alternative as
its own comment and the specification state.  At `Optional[list[str]]`
(whose `__args__` are `(list[str], NoneType)`) the condition `contains` is
rejected even though the spec-side resolution yields the list category, and
at `Union[None, int]` (whose `__args__` are `(NoneType, int)`) the condition
`gt` is rejected even though the spec-side resolution yields `int`. -/
theorem union_resolution_divergence :
    validate_condition_compatibility
        (.unionGeneric [.listGeneric .pyStr, .pyNoneType]) "contains"
      = .error (.valueError "Condition 'contains' not valid for field type list")
  ∧ resolveFieldTypeSpec (.unionGeneric [.listGeneric .pyStr, .pyNoneType]) = .pyList
  ∧ validate_condition_compatibility .pyList "contains" = .ok ()
  ∧ validate_condition_compatibility (.unionGeneric [.pyNoneType, .pyInt]) "gt"
      = .error (.valueError "Condition 'gt' not valid for field type NoneType")
  ∧ resolveFieldTypeSpec (.unionGeneric [.pyNoneType, .pyInt]) = .pyInt
  ∧ validate_condition_compatibility .pyInt "gt" = .ok () :=
  ⟨rfl, rfl, rfl, rfl, rfl, rfl⟩

/-! ## Theorems: SearchQuery construction (C10) -/

/-- C10: constructing a `SearchQuery` succeeds only when the limit is at
least 1 and at least one criterion among text, keywords, metadata filters
and date range is provided; a limit below 1 or an absence of all criteria
makes construction raise a validation error, and with a valid limit but no
criterion the error is the value error stating that at least one search
criterion is required. -/
theorem search_query_requires_criterion (q : SearchQueryInput) :
    ((searchQueryConstruct q).isOk = true →
      1 ≤ q.limit ∧ (q.text ≠ none ∨ q.keywords ≠ none ∨
        q.metadata_filters ≠ none ∨ q.date_range ≠ none))
  ∧ (q.limit < 1 ∨ (q.text = none ∧ q.keywords = none ∧
        q.metadata_filters = none ∧ q.date_range = none) →
      ∃ msg, searchQueryConstruct q = .error (.valueError msg))
  ∧ (1 ≤ q.limit → q.text = none → q.keywords = none → q.metadata_filters = none →
      q.date_range = none →
      searchQueryConstruct q =
        .error (.valueError "At least one search criterion is required")) := by
  refine ⟨?_, ?_, ?_⟩
  · intro h
    by_cases hl : q.limit < 1
    · simp [searchQueryConstruct, hl, Except.isOk, Except.toBool] at h
    · refine ⟨Int.not_lt.mp hl, ?_⟩
      by_cases hc : hasCriterion q = true
      · have := hc
        unfold hasCriterion at this
        rcases Bool.or_eq_true_iff.mp this with h' | hd
        · rcases Bool.or_eq_true_iff.mp h' with h'' | hmf
          · rcases Bool.or_eq_true_iff.mp h'' with ht | hk
            · left
              cases hx : q.text with
              | none => rw [hx] at ht; simp [optStrTruthy] at ht
              | some s => simp [hx]
            · right; left
              cases hx : q.keywords with
              | none => rw [hx] at hk; simp [optListTruthy] at hk
              | some s => simp [hx]
          · right; right; left
            cases hx : q.metadata_filters with
            | none => rw [hx] at hmf; simp [optListTruthy] at hmf
            | some s => simp [hx]
        · right; right; right
          exact Option.isSome_iff_ne_none.mp hd
      · simp [searchQueryConstruct, hl, hc, Except.isOk, Except.toBool] at h
  · intro h
    rcases h with hl | ⟨h1, h2, h3, h4⟩
    · exact ⟨"Input should be greater than or equal to 1",
        by simp [searchQueryConstruct, hl]⟩
    · by_cases hl : q.limit < 1
      · exact ⟨"Input should be greater than or equal to 1",
          by simp [searchQueryConstruct, hl]⟩
      · have hc : hasCriterion q = false := by
          simp [hasCriterion, h1, h2, h3, h4, optStrTruthy, optListTruthy]
        exact ⟨"At least one search criterion is required",
          by simp [searchQueryConstruct, hl, hc]⟩
  · intro hge h1 h2 h3 h4
    have hl : ¬ q.limit < 1 := Int.not_lt.mpr hge
    have hc : hasCriterion q = false := by
      simp [hasCriterion, h1, h2, h3, h4, optStrTruthy, optListTruthy]
    simp [searchQueryConstruct, hl, hc]

/-- Witness for C10 at concrete inputs: a query with only text succeeds and
therefore has a positive limit and a criterion; a query with limit 0 fails;
a query with limit 5 and no criterion fails with the criterion error. -/
theorem search_query_requires_criterion_witness :
    (1 ≤ (3 : Int) ∧ ((some "hello" : Option String) ≠ none ∨
        (none : Option (List String)) ≠ none ∨
        (none : Option (List MetadataFilter)) ≠ none ∨
        (none : Option (Int × Int)) ≠ none))
  ∧ (∃ msg, searchQueryConstruct ⟨none, none, none, none, 0⟩ =
      .error (.valueError msg))
  ∧ (searchQueryConstruct ⟨none, none, none, none, 5⟩ =
      .error (.valueError "At least one search criterion is required")) :=
  ⟨(search_query_requires_criterion ⟨some "hello", none, none, none, 3⟩).1 rfl,
   (search_query_requires_criterion ⟨none, none, none, none, 0⟩).2.1
     (Or.inl (by decide)),
   (search_query_requires_criterion ⟨none, none, none, none, 5⟩).2.2
     (by decide) rfl rfl rfl rfl⟩

/-! ## Dictionary lemmas -/

theorem optOr_none_right (a : Option String) : optOr a none = a := by
  cases a <;> rfl

theorem optOr_assoc (a b c : Option String) :
    optOr (optOr a b) c = optOr a (optOr b c) := by
  cases a <;> rfl

theorem optOr_isSome (a b : Option String) :
    (optOr a b).isSome = (a.isSome || b.isSome) := by
  cases a <;> rfl

theorem dictGet_eq_none_of_not_mem (d : MetadataDict) (k : String)
    (h : k ∉ d.map Prod.fst) : dictGet d k = none := by
  induction d with
  | nil => rfl
  | cons kv rest ih =>
    obtain ⟨k', v⟩ := kv
    simp only [List.map_cons, List.mem_cons] at h
    push_neg at h
    simp only [dictGet]
    rw [if_neg (by simpa using Ne.symm h.1), ih h.2]

theorem dictGet_dictInsert (d : MetadataDict) (k v k' : String) :
    dictGet (dictInsert d k v) k' = if k = k' then some v else dictGet d k' := by
  induction d with
  | nil =>
    simp only [dictInsert, dictGet]
    split <;> simp_all
  | cons kv rest ih =>
    obtain ⟨k0, v0⟩ := kv
    simp only [dictInsert]
    by_cases h0 : k0 = k
    · subst h0
      simp only [beq_self_eq_true, if_true, dictGet]
      by_cases h' : k0 = k'
      · simp [h']
      · simp [h', (by simpa using h' : (k0 == k') = false)]
    · rw [if_neg (by simpa using h0)]
      simp only [dictGet, ih]
      by_cases h1 : k0 = k'
      · subst h1
        have : k ≠ k0 := fun hk => h0 hk.symm
        simp [this]
      · simp [h1, (by simpa using h1 : (k0 == k') = false)]

theorem dictGet_dictUpdate (a b : MetadataDict) (k : String)
    (hb : MetadataDictWF b) :
    dictGet (dictUpdate a b) k = optOr (dictGet b k) (dictGet a k) := by
  induction b generalizing a with
  | nil => simp [dictUpdate, dictGet, optOr]
  | cons kv rest ih =>
    obtain ⟨k0, v0⟩ := kv
    have hwf : MetadataDictWF rest := by
      simpa [MetadataDictWF] using (List.nodup_cons.mp hb).2
    have hk0 : k0 ∉ rest.map Prod.fst := (List.nodup_cons.mp hb).1
    have : dictUpdate a ((k0, v0) :: rest) = dictUpdate (dictInsert a k0 v0) rest := rfl
    rw [this, ih _ hwf]
    by_cases h0 : k0 = k
    · subst h0
      rw [dictGet_eq_none_of_not_mem rest k0 hk0]
      simp only [dictGet, beq_self_eq_true, if_true, optOr]
      rw [dictGet_dictInsert]
      simp
    · rw [dictGet_dictInsert, if_neg h0]
      simp [dictGet, (show (k0 == k) = false by simpa using h0)]

/-! ## Metadata-merge lemmas -/

theorem inferCorpusMetadataFrom_spec (docs : List DocumentRow) :
    ∀ acc, (∀ d ∈ docs, ∃ md, d.document_metadata = some md ∧ MetadataDictWF md) →
      ∃ res, inferCorpusMetadataFrom acc docs = .ok res ∧
        ∀ k, dictGet res k = optOr (lastMetaValue docs k) (dictGet acc k) := by
  induction docs with
  | nil =>
    intro acc _
    exact ⟨acc, rfl, fun k => by simp [lastMetaValue, optOr]⟩
  | cons d ds ih =>
    intro acc h
    obtain ⟨md, hmd, hwf⟩ := h d (List.mem_cons_self d ds)
    obtain ⟨res, hres, hget⟩ :=
      ih (dictUpdate acc md) (fun d' hd' => h d' (List.mem_cons_of_mem d hd'))
    refine ⟨res, ?_, ?_⟩
    · simp [inferCorpusMetadataFrom, hmd, hres]
    · intro k
      rw [hget k, dictGet_dictUpdate _ _ _ hwf, ← optOr_assoc]
      simp [lastMetaValue, hmd]

theorem inferCorpusMetadataFrom_error (docs : List DocumentRow) :
    ∀ acc, (∃ d ∈ docs, d.document_metadata = none) →
      ∃ msg, inferCorpusMetadataFrom acc docs = .error (.typeError msg) := by
  induction docs with
  | nil =>
    intro acc h
    simp at h
  | cons d ds ih =>
    intro acc ⟨d', hd', hnone⟩
    rcases List.mem_cons.mp hd' with rfl | hin
    · exact ⟨"document_metadata is None", by simp [inferCorpusMetadataFrom, hnone]⟩
    · cases hdm : d.document_metadata with
      | none =>
        exact ⟨"document_metadata is None", by simp [inferCorpusMetadataFrom, hdm]⟩
      | some md =>
        obtain ⟨msg, hmsg⟩ := ih (dictUpdate acc md) ⟨d', hin, hnone⟩
        exact ⟨msg, by simp [inferCorpusMetadataFrom, hdm, hmsg]⟩

theorem lastMetaValue_isSome_of_mem (docs : List DocumentRow) (e : DocumentRow)
    (me : MetadataDict) (k : String) (hmem : e ∈ docs)
    (hme : e.document_metadata = some me) (hk : (dictGet me k).isSome = true) :
    (lastMetaValue docs k).isSome = true := by
  induction docs with
  | nil => simp at hmem
  | cons d ds ih =>
    rw [lastMetaValue, optOr_isSome]
    rcases List.mem_cons.mp hmem with rfl | hin
    · rw [hme]
      simp [hk]
    · rw [ih hin]
      simp

/-- The merged value of a key comes from a document containing the key whose
chunk index is maximal among the documents containing it (for a list sorted
by ascending chunk index). -/
theorem lastMetaValue_max (docs : List DocumentRow) (k : String) (v : String)
    (hsorted : docs.Pairwise (fun a b => a.chunk_index ≤ b.chunk_index))
    (h : lastMetaValue docs k = some v) :
    ∃ d, d ∈ docs ∧ (∃ md, d.document_metadata = some md ∧ dictGet md k = some v)
      ∧ ∀ e ∈ docs, ∀ me, e.document_metadata = some me →
          (dictGet me k).isSome = true → e.chunk_index ≤ d.chunk_index := by
  induction docs with
  | nil => simp [lastMetaValue] at h
  | cons d ds ih =>
    rw [lastMetaValue] at h
    cases hls : lastMetaValue ds k with
    | some v' =>
      rw [hls] at h
      simp only [optOr] at h
      obtain rfl : v' = v := by simpa using h
      obtain ⟨d', hd'mem, hbind, hmax⟩ := ih (List.pairwise_cons.mp hsorted).2 hls
      refine ⟨d', List.mem_cons_of_mem d hd'mem, hbind, ?_⟩
      intro e hemem me hme hk
      rcases List.mem_cons.mp hemem with rfl | hin
      · exact (List.pairwise_cons.mp hsorted).1 d' hd'mem
      · exact hmax e hin me hme hk
    | none =>
      rw [hls] at h
      simp only [optOr] at h
      cases hdm : d.document_metadata with
      | none => rw [hdm] at h; simp at h
      | some md =>
        rw [hdm] at h
        refine ⟨d, List.mem_cons_self d ds, ⟨md, hdm, h⟩, ?_⟩
        intro e hemem me hme hk
        rcases List.mem_cons.mp hemem with rfl | hin
        · exact Nat.le_refl _
        · exact absurd (lastMetaValue_isSome_of_mem ds e me k hin hme hk)
            (by rw [hls]; simp)

/-! ## Sorting lemmas -/

theorem insertByChunkIndex_perm (r : DocumentRow) (l : List DocumentRow) :
    (insertByChunkIndex r l).Perm (r :: l) := by
  induction l with
  | nil => exact List.Perm.refl _
  | cons x xs ih =>
    rw [insertByChunkIndex]
    split
    · exact List.Perm.refl _
    · exact (List.Perm.cons x ih).trans (List.Perm.swap r x xs)

theorem insertByChunkIndex_sorted (r : DocumentRow) (l : List DocumentRow)
    (h : l.Pairwise (fun a b => a.chunk_index ≤ b.chunk_index)) :
    (insertByChunkIndex r l).Pairwise (fun a b => a.chunk_index ≤ b.chunk_index) := by
  induction l with
  | nil => simp [insertByChunkIndex]
  | cons x xs ih =>
    rw [insertByChunkIndex]
    split
    · rename_i hle
      refine List.pairwise_cons.mpr ⟨?_, h⟩
      intro y hy
      rcases List.mem_cons.mp hy with rfl | hin
      · exact hle
      · exact Nat.le_trans hle ((List.pairwise_cons.mp h).1 y hin)
    · rename_i hgt
      have hxr : x.chunk_index ≤ r.chunk_index := Nat.le_of_not_le hgt
      refine List.pairwise_cons.mpr ⟨?_, ih (List.pairwise_cons.mp h).2⟩
      intro y hy
      have hy' := (insertByChunkIndex_perm r xs).mem_iff.mp hy
      rcases List.mem_cons.mp hy' with rfl | hin
      · exact hxr
      · exact (List.pairwise_cons.mp h).1 y hin

theorem sortByChunkIndex_sorted (l : List DocumentRow) :
    (sortByChunkIndex l).Pairwise (fun a b => a.chunk_index ≤ b.chunk_index) := by
  induction l with
  | nil => exact List.Pairwise.nil
  | cons x xs ih => exact insertByChunkIndex_sorted x _ ih

theorem insertByChunkIndex_of_le (r : DocumentRow) (l : List DocumentRow)
    (h : ∀ x ∈ l, r.chunk_index ≤ x.chunk_index) :
    insertByChunkIndex r l = r :: l := by
  cases l with
  | nil => rfl
  | cons x xs =>
    rw [insertByChunkIndex, if_pos (h x (List.mem_cons_self x xs))]

theorem sortByChunkIndex_of_sorted (l : List DocumentRow)
    (h : l.Pairwise (fun a b => a.chunk_index ≤ b.chunk_index)) :
    sortByChunkIndex l = l := by
  induction l with
  | nil => rfl
  | cons x xs ih =>
    rw [sortByChunkIndex, ih (List.pairwise_cons.mp h).2,
      insertByChunkIndex_of_le x xs (List.pairwise_cons.mp h).1]

/-! ## Theorems: corpus metadata inference (C3) -/

/-- C3: `_infer_corpus_metadata` returns the merge of the documents' stored
metadata in list order with the later document's value winning on key
conflicts (empty list giving the empty mapping), and raises a `TypeError`
whenever any document's metadata is absent, never skipping that document. -/
theorem infer_corpus_metadata_spec (docs : List DocumentRow) :
    inferCorpusMetadata [] = .ok []
  ∧ ((∀ d ∈ docs, ∃ md, d.document_metadata = some md ∧ MetadataDictWF md) →
      ∃ res, inferCorpusMetadata docs = .ok res ∧
        ∀ k, dictGet res k = lastMetaValue docs k)
  ∧ ((∃ d ∈ docs, d.document_metadata = none) →
      ∃ msg, inferCorpusMetadata docs = .error (.typeError msg)) := by
  refine ⟨rfl, ?_, ?_⟩
  · intro h
    obtain ⟨res, hres, hget⟩ := inferCorpusMetadataFrom_spec docs [] h
    exact ⟨res, hres, fun k => by rw [hget k]; simp [dictGet, optOr_none_right]⟩
  · exact inferCorpusMetadataFrom_error docs []

/-- Two documents with overlapping metadata keys, used by witnesses. -/
def sampleDoc1 : DocumentRow :=
  { collection := none, corpus_id := "corpus-1", chunk_index := 0,
    content := "First chunk",
    document_metadata := some [("key1", "value1"), ("shared", "first")],
    embedding := [1], is_deleted := false }

/-- Second sample document; its `shared` key must win the merge. -/
def sampleDoc2 : DocumentRow :=
  { collection := none, corpus_id := "corpus-1", chunk_index := 1,
    content := "Second chunk",
    document_metadata := some [("key2", "value2"), ("shared", "second")],
    embedding := [2], is_deleted := false }

/-- A document whose metadata is absent (Python `None`). -/
def sampleDocNoMeta : DocumentRow :=
  { collection := none, corpus_id := "corpus-1", chunk_index := 2,
    content := "Bad chunk", document_metadata := none,
    embedding := [3], is_deleted := false }

/-- Witness for C3: the merge of two concrete documents is computed with the
later value winning, and a document list containing an absent metadata fails
with a type error. -/
theorem infer_corpus_metadata_spec_witness :
    (∃ res, inferCorpusMetadata [sampleDoc1, sampleDoc2] = .ok res ∧
      ∀ k, dictGet res k = lastMetaValue [sampleDoc1, sampleDoc2] k)
  ∧ (∃ msg, inferCorpusMetadata [sampleDoc1, sampleDocNoMeta] =
      .error (.typeError msg)) :=
  ⟨(infer_corpus_metadata_spec [sampleDoc1, sampleDoc2]).2.1
      (by
        intro d hd
        rcases List.mem_cons.mp hd with rfl | hd'
        · exact ⟨_, rfl, by decide⟩
        · rcases List.mem_cons.mp hd' with rfl | hd''
          · exact ⟨_, rfl, by decide⟩
          · simp at hd''),
   (infer_corpus_metadata_spec [sampleDoc1, sampleDocNoMeta]).2.2
      ⟨sampleDocNoMeta, by simp, rfl⟩⟩

/-! ## Theorems: full-corpus reconstruction (C1) -/

/-- A read-only manager: no embedding provider configured. -/
def sampleManager : CorpusManager :=
  { embedding_provider := none, chunk_delimiter := "\n",
    extract_chunk_metadata := fun _ => [] }

/-- C4: a content/embedding length mismatch raises a `ValueError` before any
store mutation — the store is unchanged and no session operation (no add, no
commit) was performed. -/
theorem insert_documents_mismatch (m : CorpusManager) (store : List DocumentRow)
    (cid : String) (contents : List String) (embeddings : List (List Int))
    (corpusMeta : MetadataDict) (opts : OptionalProps) (u : Bool)
    (h : contents.length ≠ embeddings.length) :
    insert_documents m store cid contents embeddings corpusMeta opts u =
      { result := .error
          (.valueError "Number of embeddings does not match number of documents"),
        store := store, ops := [] } := by
  unfold insert_documents
  rw [if_pos h]

/-- Witness for C4: two contents against one embedding fail with the value
error and leave the one-row store untouched. -/
theorem insert_documents_mismatch_witness :
    insert_documents sampleManager [sampleDoc1] "corpus-1" ["a", "b"] [[1]]
        [] ⟨none, none⟩ false =
      { result := .error
          (.valueError "Number of embeddings does not match number of documents"),
        store := [sampleDoc1], ops := [] } :=
  insert_documents_mismatch sampleManager [sampleDoc1] "corpus-1" ["a", "b"] [[1]]
    [] ⟨none, none⟩ false (by decide)

/-- C5: inserting an empty content list (with an empty embedding list)
returns 0, performs no session operation, and is not an error. -/
theorem insert_documents_empty (m : CorpusManager) (store : List DocumentRow)
    (cid : String) (corpusMeta : MetadataDict) (opts : OptionalProps) (u : Bool) :
    insert_documents m store cid [] [] corpusMeta opts u =
      { result := .ok 0, store := store, ops := [] } := rfl

/-! ## Theorems: read-only manager (C6) -/

/-- A trivial embedding provider mapping every text to the vector `[0]`. -/
def sampleProvider : EmbeddingProvider :=
  { embed_batch := fun ts => ts.map (fun _ => [0]),
    embed_batch_length := fun ts => by simp }

theorem buildRows_mem (m : CorpusManager) (cid : String) (corpusMeta : MetadataDict)
    (opts : OptionalProps) :
    ∀ (cs : List String) (i : Nat) (es : List (List Int)) (r : DocumentRow),
      r ∈ buildRows m cid corpusMeta opts i cs es →
      r.corpus_id = cid ∧ r.collection = opts.collection ∧ i ≤ r.chunk_index := by
  intro cs
  induction cs with
  | nil =>
    intro i es r hr
    simp [buildRows] at hr
  | cons c cs ih =>
    intro i es r hr
    cases es with
    | nil => simp [buildRows] at hr
    | cons e es =>
      rw [buildRows] at hr
      rcases List.mem_cons.mp hr with rfl | hin
      · exact ⟨rfl, rfl, Nat.le_refl i⟩
      · obtain ⟨h1, h2, h3⟩ := ih (i + 1) es r hin
        exact ⟨h1, h2, Nat.le_of_succ_le h3⟩

theorem buildRows_dup_free (m : CorpusManager) (cid : String)
    (corpusMeta : MetadataDict) (opts : OptionalProps) :
    ∀ (cs : List String) (i : Nat) (es : List (List Int)),
      hasDupKeys (buildRows m cid corpusMeta opts i cs es) = false := by
  intro cs
  induction cs with
  | nil => intro i es; rfl
  | cons c cs ih =>
    intro i es
    cases es with
    | nil => rfl
    | cons e es =>
      rw [buildRows, hasDupKeys]
      rw [ih (i + 1) es]
      rw [Bool.or_false]
      refine List.any_eq_false.mpr ?_
      intro s hs
      obtain ⟨_, _, hidx⟩ := buildRows_mem m cid corpusMeta opts cs (i + 1) es s hs
      simp only [decide_eq_true_eq, rowKey]
      intro hkey
      have : s.chunk_index = i := congrArg (fun t => t.2.2) hkey
      omega

theorem buildRows_map_content (m : CorpusManager) (cid : String)
    (corpusMeta : MetadataDict) (opts : OptionalProps) :
    ∀ (cs : List String) (i : Nat) (es : List (List Int)),
      cs.length = es.length →
      (buildRows m cid corpusMeta opts i cs es).map (fun r => r.content) = cs := by
  intro cs
  induction cs with
  | nil => intro i es _; rfl
  | cons c cs ih =>
    intro i es hlen
    cases es with
    | nil => simp at hlen
    | cons e es =>
      rw [buildRows, List.map_cons, ih (i + 1) es (by simpa using hlen)]

theorem insert_documents_false_clash (m : CorpusManager) (store : List DocumentRow)
    (cid : String) (contents : List String) (embs : List (List Int))
    (corpusMeta : MetadataDict) (opts : OptionalProps)
    (hlen : contents.length = embs.length) (hne : contents ≠ [])
    (hclash : keyClash store (buildRows m cid corpusMeta opts 0 contents embs) = true) :
    insert_documents m store cid contents embs corpusMeta opts false =
      { result := .error (.integrityError "duplicate key value violates unique constraint"),
        store := store,
        ops := [SessionOp.addAll (buildRows m cid corpusMeta opts 0 contents embs),
                SessionOp.commitOp] } := by
  unfold insert_documents
  rw [if_neg (by simp [hlen])]
  rw [if_neg (show ¬contents.isEmpty = true by
    cases contents with
    | nil => exact absurd rfl hne
    | cons a as => simp)]
  simp [hclash]

theorem insert_documents_true_noclash (m : CorpusManager) (store : List DocumentRow)
    (cid : String) (contents : List String) (embs : List (List Int))
    (corpusMeta : MetadataDict) (opts : OptionalProps)
    (hlen : contents.length = embs.length) (hne : contents ≠ [])
    (hnoclash : keyClash (store.filter (fun r => !(r.corpus_id == cid)))
      (buildRows m cid corpusMeta opts 0 contents embs) = false) :
    insert_documents m store cid contents embs corpusMeta opts true =
      { result := .ok contents.length,
        store := store.filter (fun r => !(r.corpus_id == cid)) ++
          buildRows m cid corpusMeta opts 0 contents embs,
        ops := [SessionOp.deleteByCorpusId cid,
                SessionOp.addAll (buildRows m cid corpusMeta opts 0 contents embs),
                SessionOp.commitOp] } := by
  unfold insert_documents
  rw [if_neg (by simp [hlen])]
  rw [if_neg (show ¬contents.isEmpty = true by
    cases contents with
    | nil => exact absurd rfl hne
    | cons a as => simp)]
  simp [hnoclash]

/-! ## Theorems: duplicate insert and replace semantics (C2) -/

/-- C2 (amended): for a corpus persisted under a corpus id, re-inserting
under the same corpus id with `update_if_exists = False` raises the store
integrity error when the new insert uses the same collection and yields at
least one chunk (in particular when re-running the identical insert, since a
persisted corpus has a chunk-0 row), leaving the store unchanged; with
`update_if_exists = True` and at least one new chunk, every document with
that corpus id is deleted regardless of collection and the new chunk set is
inserted, so that afterwards the rows of that corpus id are exactly the new
chunks (all carrying the new collection). -/
theorem insert_corpus_replace_spec (m : CorpusManager) (p : EmbeddingProvider)
    (store : List DocumentRow) (cid : String) (content : String)
    (corpusMeta : MetadataDict) (opts : OptionalProps) (fresh : String)
    (hp : m.embedding_provider = some p)
    (hchunks : splitCorpus m content ≠ []) :
    ((∃ r ∈ store, r.collection = opts.collection ∧ r.corpus_id = cid ∧
        r.chunk_index = 0) →
      insert_corpus m store content corpusMeta opts (some cid) fresh false =
        { result := .error
            (.integrityError "duplicate key value violates unique constraint"),
          store := store,
          ops := [SessionOp.addAll (buildRows m cid corpusMeta opts 0
                    (splitCorpus m content)
                    (p.embed_batch (splitCorpus m content))),
                  SessionOp.commitOp] })
  ∧ (∃ newRows,
      insert_corpus m store content corpusMeta opts (some cid) fresh true =
        { result := .ok (splitCorpus m content).length,
          store := store.filter (fun r => !(r.corpus_id == cid)) ++ newRows,
          ops := [SessionOp.deleteByCorpusId cid, SessionOp.addAll newRows,
                  SessionOp.commitOp] }
      ∧ newRows.map (fun r => r.content) = splitCorpus m content
      ∧ newRows.length = (splitCorpus m content).length
      ∧ (∀ r ∈ newRows, r.corpus_id = cid ∧ r.collection = opts.collection)
      ∧ (store.filter (fun r => !(r.corpus_id == cid)) ++ newRows).filter
          (fun r => r.corpus_id == cid) = newRows) := by
  have hred : ∀ u, insert_corpus m store content corpusMeta opts (some cid) fresh u =
      insert_documents m store cid (splitCorpus m content)
        (p.embed_batch (splitCorpus m content)) corpusMeta opts u := by
    intro u
    unfold insert_corpus
    rw [hp]
    rfl
  have hlen : (splitCorpus m content).length =
      (p.embed_batch (splitCorpus m content)).length :=
    (p.embed_batch_length _).symm
  have hmap := buildRows_map_content m cid corpusMeta opts
    (splitCorpus m content) 0 (p.embed_batch (splitCorpus m content)) hlen
  constructor
  · rintro ⟨r, hr, hcoll, hcid, hidx⟩
    rw [hred false]
    apply insert_documents_false_clash m store cid _ _ corpusMeta opts hlen hchunks
    cases hc : splitCorpus m content with
    | nil => exact absurd hc hchunks
    | cons c0 cs =>
      cases he : p.embed_batch (c0 :: cs) with
      | nil =>
        rw [hc, he] at hlen
        simp at hlen
      | cons e0 es =>
        rw [buildRows]
        unfold keyClash
        refine Bool.or_eq_true_iff.mpr (Or.inl ?_)
        refine List.any_eq_true.mpr ⟨_, List.mem_cons_self _ _, ?_⟩
        refine List.any_eq_true.mpr ⟨r, hr, ?_⟩
        simp [rowKey, hcoll, hcid, hidx]
  · have hnoclash : keyClash (store.filter (fun r => !(r.corpus_id == cid)))
        (buildRows m cid corpusMeta opts 0 (splitCorpus m content)
          (p.embed_batch (splitCorpus m content))) = false := by
      unfold keyClash
      rw [buildRows_dup_free, Bool.or_false]
      refine List.any_eq_false.mpr ?_
      intro r hr
      rw [Bool.not_eq_true]
      refine List.any_eq_false.mpr ?_
      intro s hs
      simp only [decide_eq_true_eq]
      intro hkey
      have hrc := (buildRows_mem m cid corpusMeta opts _ 0 _ r hr).1
      have hsc : (s.corpus_id == cid) = false := by
        have hmem := (List.mem_filter.mp hs).2
        simpa using hmem
      have hseq : s.corpus_id = r.corpus_id := congrArg (fun t => t.2.1) hkey
      rw [hrc] at hseq
      simp [hseq] at hsc
    refine ⟨buildRows m cid corpusMeta opts 0 (splitCorpus m content)
      (p.embed_batch (splitCorpus m content)), ?_, hmap, ?_, ?_, ?_⟩
    · rw [hred true]
      exact insert_documents_true_noclash m store cid _ _ corpusMeta opts
        hlen hchunks hnoclash
    · simpa using congrArg List.length hmap
    · intro r hr
      obtain ⟨h1, h2, _⟩ := buildRows_mem m cid corpusMeta opts _ 0 _ r hr
      exact ⟨h1, h2⟩
    · rw [List.filter_append]
      have h1 : (store.filter (fun r => !(r.corpus_id == cid))).filter
          (fun r => r.corpus_id == cid) = [] := by
        refine List.filter_eq_nil_iff.mpr ?_
        intro a ha
        have hmem := (List.mem_filter.mp ha).2
        simpa using hmem
      have h2 : (buildRows m cid corpusMeta opts 0 (splitCorpus m content)
          (p.embed_batch (splitCorpus m content))).filter
          (fun r => r.corpus_id == cid) =
          buildRows m cid corpusMeta opts 0 (splitCorpus m content)
            (p.embed_batch (splitCorpus m content)) := by
        refine List.filter_eq_self.mpr ?_
        intro a ha
        have := (buildRows_mem m cid corpusMeta opts _ 0 _ a ha).1
        simp [this]
      rw [h1, h2, List.nil_append]

/-- A fully configured manager splitting on blank lines. -/
def replaceManager : CorpusManager :=
  { embedding_provider := some sampleProvider, chunk_delimiter := "\n\n",
    extract_chunk_metadata := fun _ => [] }

/-- The chunk-0 row of a corpus persisted under collection `collection_a`. -/
def oldCollectionDoc : DocumentRow :=
  { collection := some "collection_a", corpus_id := "cid-1", chunk_index := 0,
    content := "Old content", document_metadata := some [("author", "original")],
    embedding := [0], is_deleted := false }

/-- Witness for C2 at concrete inputs: re-running an insert for the persisted
corpus under the same collection with `update_if_exists = False` surfaces the
integrity error, and replacing it with three chunks under a new collection
with `update_if_exists = True` returns 3. -/
theorem insert_corpus_replace_spec_witness :
    (insert_corpus replaceManager [oldCollectionDoc] "New one.\n\nNew two." []
        ⟨none, some "collection_a"⟩ (some "cid-1") "fresh" false).result =
      .error (.integrityError "duplicate key value violates unique constraint")
  ∧ (insert_corpus replaceManager [oldCollectionDoc]
        "New one.\n\nNew two.\n\nNew three." []
        ⟨none, some "collection_b"⟩ (some "cid-1") "fresh" true).result =
      .ok 3 := by
  constructor
  · have h := (insert_corpus_replace_spec replaceManager sampleProvider
      [oldCollectionDoc] "cid-1" "New one.\n\nNew two." []
      ⟨none, some "collection_a"⟩ "fresh" rfl (by decide)).1
      ⟨oldCollectionDoc, by simp, rfl, rfl, rfl⟩
    rw [h]
  · obtain ⟨rows, heq, hmap, hlen, hfields, hfilter⟩ :=
      (insert_corpus_replace_spec replaceManager sampleProvider
        [oldCollectionDoc] "cid-1" "New one.\n\nNew two.\n\nNew three." []
        ⟨none, some "collection_b"⟩ "fresh" rfl (by decide)).2
    rw [heq]
    rfl

/-- C2 as stated fails on two corners of its universal quantification.
First, re-inserting the same corpus id under a different collection with
`update_if_exists = False` succeeds (returns 1, no integrity error), because
the unique key `(collection, corpus_id, chunk_index)` includes the
collection.  Second, `update_if_exists = True` with content yielding no
chunks performs no store operation at all (the empty-input guard returns 0
first), so the old row survives instead of the store holding exactly the
empty new chunk set. -/
theorem insert_corpus_replace_counterexample :
    (insert_corpus replaceManager [oldCollectionDoc] "Other content" []
        ⟨none, some "collection_b"⟩ (some "cid-1") "fresh" false).result = .ok 1
  ∧ (insert_corpus replaceManager [oldCollectionDoc] "" []
        ⟨none, some "collection_b"⟩ (some "cid-1") "fresh" true).store =
      [oldCollectionDoc]
  ∧ [oldCollectionDoc] ≠ ([] : List DocumentRow) :=
  ⟨rfl, rfl, by decide⟩

/-! ## Theorems: keyword search stage (C9) -/

/-- C9: with keywords present the compiled query holds for a row exactly
when the base query holds and the content case-insensitively contains at
least one keyword (OR across keywords); with keywords absent the keyword
stage returns the query unmodified. -/
theorem keyword_stage_spec (q : StoreQuery) (kws : List String) (r : DocumentRow) :
    applyKeywordSearch q none = q
  ∧ queryHolds (applyKeywordSearch q (some kws)) r =
      (queryHolds q r && kws.any (fun k => containsCI r.content k)) := by
  constructor
  · rfl
  · simp [queryHolds, applyKeywordSearch, condHolds, List.all_append]
